import Mathlib

/-!
# BasicRecords backend: the in-memory store and its HTTP handlers

A shallow embedding of `backend/internal/domain/models.go`,
`backend/internal/storage/memory/memory.go` and the three handlers of
`backend/internal/api/server.go`, followed by theorems about them.

Modelling conventions

* `time.Time` is an `Int`: an instant in nanoseconds on the clock of the process.
  `t.After(u)` is `u < t`, `t.Before(u)` is `t < u`, `t.Add(d)` is `t + d`.
  `t.AddDate(0, 0, days)` rebuilds the instant from calendar fields in the local
  time zone; the zone belongs to the machine, so the function is a field of
  `Env` and nothing is assumed about it.
* Go slices are `List`s; a slice expression is bounds-checked and a failed check
  is the outcome `panic`.
* `uuid.NewString()` and `time.Now()` are read from an environment `Env` that
  fixes the value of the k-th call; the number of calls made so far is part of
  the state `Sys`.
* A query parameter is the string the client sent (`none` when the key is
  absent); `c.QueryInt` reads it with `strconv.Atoi` into an `int` of `intSize`
  bits, and a string that is not a decimal integer of that range yields the
  default.
* `sort.Slice` belongs to the Go standard library. The store takes it as a
  parameter (`SliceSorter`), and the theorems assume only its documented
  contract (`SortsCorrectly`): it permutes the slice and leaves it ordered by
  `less`; it is not assumed to be stable. `goSorter` is an instance, the
  insertion sort that `sort.Slice` runs on slices of at most 12 elements.
* The `float64` fields of `Metric` only ever hold the integers 68..78 and are
  never computed with; they are `Int`s.
-/

namespace BasicRecords

/-! ## Domain model (`domain/models.go`) -/

/-- Event captures a single journal entry. -/
structure Event where
  ID : String
  Title : String
  Content : String
  Mood : String
  Tags : List String
  MediaRefs : List String
  OccurredAt : Int
deriving DecidableEq, Repr

/-- CreateEventInput is the payload for creating new events. -/
structure CreateEventInput where
  Title : String
  Content : String
  Mood : String
  Tags : List String
  MediaRefs : List String
deriving DecidableEq, Repr

/-- Metric models an OHLC style data point. -/
structure Metric where
  ID : String
  Sheet : String
  Name : String
  Date : Int
  Open : Int
  High : Int
  Low : Int
  Close : Int
  Events : List String
deriving DecidableEq, Repr

/-! ## Go runtime pieces used by the store -/

/-- What a Go call of type `(T, error)` can do: return a value with a nil error,
return a non-nil error, or panic at run time. -/
inductive Outcome (α : Type) where
  | ok (value : α)
  | fail (message : String)
  | panic
deriving DecidableEq, Repr

/-- The duration `time.Hour`, in nanoseconds. -/
def Hour : Int := 3600 * 1000000000

/-- The slice expression `xs[:hi]`: the run-time check, then the first `hi`
elements. Go checks `0 <= hi <= cap(xs)`; the check here is against `len(xs)`,
which is at most `cap(xs)`, so it fails whenever the one of Go does. -/
def sliceTo {α : Type} (xs : List α) (hi : Int) : Option (List α) :=
  if 0 ≤ hi ∧ hi ≤ (xs.length : Int) then some (xs.take hi.toNat) else none

/-- The slice expression `xs[lo:]`: the run-time check `0 <= lo <= len(xs)`, then
everything from index `lo` on. -/
def sliceFrom {α : Type} (xs : List α) (lo : Int) : Option (List α) :=
  if 0 ≤ lo ∧ lo ≤ (xs.length : Int) then some (xs.drop lo.toNat) else none

/-- The requirement `sort.Slice` puts on `less`: a strict weak ordering. -/
structure StrictWeak {α : Type} (less : α → α → Bool) : Prop where
  asymm : ∀ a b, less a b = true → less b a = false
  negTrans : ∀ a b c, less a b = false → less b c = false → less a c = false

/-- A `sort.Slice`: a function from a comparison and a slice to the slice it
leaves behind. -/
structure SliceSorter where
  sort : {α : Type} → (α → α → Bool) → List α → List α

/-- The contract of `sort.Slice`: it rearranges the slice (`perm`) and, when
`less` is a strict weak ordering, leaves no later element less than an earlier
one (`sorted`). The order of equal elements is not fixed. -/
structure SortsCorrectly (srt : SliceSorter) : Prop where
  perm : ∀ {α : Type} (less : α → α → Bool) (xs : List α), (srt.sort less xs).Perm xs
  sorted : ∀ {α : Type} (less : α → α → Bool) (xs : List α), StrictWeak less →
    (srt.sort less xs).Pairwise (fun a b => less b a = false)

/-- The inner loop of `insertionSort_func`,
`for j := i; j > a && less(j, j-1); j-- { swap(j, j-1) }`:
`x` moves left past each element it is less than. The part of the slice to the
left of `x` is given nearest element first. -/
def siftLeft {α : Type} (less : α → α → Bool) (x : α) : List α → List α
  | [] => [x]
  | y :: ys => if less x y then y :: siftLeft less x ys else x :: y :: ys

/-- The outer loop of `insertionSort_func`: `done` is the part already in order
(nearest element first), the second list is what is still to be inserted. -/
def insertionSortLoop {α : Type} (less : α → α → Bool) : List α → List α → List α
  | done, [] => done.reverse
  | done, x :: rest => insertionSortLoop less (siftLeft less x done) rest

/-- The function `insertionSort_func` of Go package `sort` on a whole slice. -/
def insertionSortFunc {α : Type} (less : α → α → Bool) (xs : List α) : List α :=
  insertionSortLoop less [] xs

/-- The insertion sort of Go package `sort`, as a `sort.Slice`. -/
def goSorter : SliceSorter where
  sort := fun less xs => insertionSortFunc less xs

/-! ## The store (`storage/memory/memory.go`) -/

/-- Store is the in-memory data store (the lock is not modelled). -/
structure Store where
  events : List Event
  metrics : List Metric
deriving DecidableEq, Repr

/-- What the store takes from outside: the value returned by the k-th call of
`uuid.NewString()`, the reading of the k-th call of `time.Now()`, and
`AddDate t days`, the instant `t.AddDate(0, 0, days)` in the local time zone of
the machine (the same wall-clock time `days` calendar days later). -/
structure Env where
  NewString : Nat → String
  Now : Nat → Int
  AddDate : Int → Int → Int

/-- The state of the process: the store and how many identifiers and clock
readings have been drawn. -/
structure Sys where
  store : Store
  uuidCalls : Nat
  clockCalls : Nat

/-- The loop of `NewStore` that appends the seven seed metrics; `i` is the loop
variable, `n` the number of iterations left and `k` the number of identifiers
drawn so far. -/
def seedMetricsLoop (env : Env) (baseDate : Int) :
    Nat → Nat → Nat → List Metric → List Metric
  | 0, _, _, seedMetrics => seedMetrics
  | n + 1, i, k, seedMetrics =>
    seedMetricsLoop env baseDate n (i + 1) (k + 1)
      (seedMetrics ++ [{
        ID := env.NewString k
        Sheet := "health"
        Name := "活力指数"
        Date := env.AddDate baseDate i
        Open := 70 + (i : Int)
        High := 72 + (i : Int)
        Low := 68 + (i : Int)
        Close := 71 + (i : Int)
        Events := [] }])

/-- NewStore seeds the store with two events and seven metrics. It is the first
code to run: it draws identifiers 0..8 and clock readings 0..2. -/
def NewStore (env : Env) : Sys :=
  let seedEvents : List Event := [
    { ID := env.NewString 0
      Title := "晨跑 + 冷水澡"
      Content := "5km 慢跑，冷水澡 3 分钟，感觉专注度拉满。"
      Mood := "Focused"
      Tags := ["健康", "晨间例行"]
      MediaRefs := ["file:///Users/me/fitness/2024-05-12-run.gpx"]
      OccurredAt := env.Now 0 + (-6) * Hour },
    { ID := env.NewString 1
      Title := "午间复盘"
      Content := "和交易教练复盘两笔亏损，调整出场纪律。"
      Mood := "Calm"
      Tags := ["理财", "复盘"]
      MediaRefs := ["file:///Users/me/memos/2024-05-12-notes.md"]
      OccurredAt := env.Now 1 + (-2) * Hour }]
  let baseDate := env.AddDate (env.Now 2) (-6)
  let seedMetrics := seedMetricsLoop env baseDate 7 0 2 []
  { store := { events := seedEvents, metrics := seedMetrics }, uuidCalls := 9, clockCalls := 3 }

/-- The comparison handed to `sort.Slice` in `ListEvents`:
`cloned[i].OccurredAt.After(cloned[j].OccurredAt)`. -/
def eventLess (a b : Event) : Bool := decide (b.OccurredAt < a.OccurredAt)

/-- The comparison handed to `sort.Slice` in `ListMetrics`:
`cloned[i].Date.Before(cloned[j].Date)`. -/
def metricLess (a b : Metric) : Bool := decide (a.Date < b.Date)

/-- ListEvents returns the latest events, and the store as the call leaves it. -/
def ListEvents (srt : SliceSorter) (s : Store) (limit : Int) : Outcome (List Event) × Store :=
  let limit := if limit ≤ 0 ∨ limit > (s.events.length : Int) then (s.events.length : Int) else limit
  let cloned := ([] : List Event) ++ s.events
  let cloned := srt.sort eventLess cloned
  match sliceTo cloned limit with
  | some res => (Outcome.ok res, s)
  | none => (Outcome.panic, s)

/-- CreateEvent persists a new event in memory. -/
def CreateEvent (env : Env) (p : Sys) (input : CreateEventInput) : Outcome Event × Sys :=
  let evt : Event := {
    ID := env.NewString p.uuidCalls
    Title := input.Title
    Content := input.Content
    Mood := input.Mood
    Tags := ([] : List String) ++ input.Tags
    MediaRefs := ([] : List String) ++ input.MediaRefs
    OccurredAt := env.Now p.clockCalls }
  (Outcome.ok evt,
    { store := { p.store with events := p.store.events ++ [evt] }
      uuidCalls := p.uuidCalls + 1
      clockCalls := p.clockCalls + 1 })

/-- ListMetrics returns candlesticks for the requested number of days, and the
store as the call leaves it. -/
def ListMetrics (srt : SliceSorter) (s : Store) (days : Int) : Outcome (List Metric) × Store :=
  let days := if days ≤ 0 ∨ days > (s.metrics.length : Int) then (s.metrics.length : Int) else days
  match sliceFrom s.metrics ((s.metrics.length : Int) - days) with
  | none => (Outcome.panic, s)
  | some latest =>
    let cloned := ([] : List Metric) ++ latest
    let cloned := srt.sort metricLess cloned
    (Outcome.ok cloned, s)

/-! ## The HTTP handlers (`api/server.go`) -/

/-- What a handler hands back to Fiber: an error made by `fiber.NewError`, or a
JSON body (`data`, and for the list endpoints `meta.count`) with its status
code; `crash` is a handler that panicked. -/
inductive Response where
  | error (status : Nat) (message : String)
  | event (status : Nat) (data : Event)
  | events (status : Nat) (data : List Event) (count : Nat)
  | metrics (status : Nat) (data : List Metric) (count : Nat)
  | crash
deriving DecidableEq, Repr

def StatusOK : Nat := 200
def StatusCreated : Nat := 201
def StatusBadRequest : Nat := 400
def StatusInternalServerError : Nat := 500

/-- The digit loop of `strconv.Atoi`, `n = n*10 + int(ch - 48)`; `none` is the
syntax error raised at a byte that is not a decimal digit. -/
def parseDigits (digits : List Char) : Option Nat :=
  digits.foldl
    (fun acc ch =>
      match acc with
      | none => none
      | some n => if '0' ≤ ch ∧ ch ≤ '9' then some (n * 10 + (ch.toNat - 48)) else none)
    (some 0)

/-- The function `strconv.Atoi` where `int` has `intSize` bits (`strconv.IntSize`,
32 or 64): an optional sign `+` or `-`, then at least one decimal digit and
nothing else; `none` is a returned error, either the syntax error or the range
error for a value outside `-2^(intSize-1) .. 2^(intSize-1) - 1`. -/
def Atoi (intSize : Nat) (s : String) : Option Int :=
  let neg : Bool := s.data.head? = some '-'
  let digits : List Char :=
    match s.data with
    | '-' :: rest => rest
    | '+' :: rest => rest
    | rest => rest
  if digits = [] then none
  else
    match parseDigits digits with
    | none => none
    | some un =>
      let v : Int := if neg then -(un : Int) else (un : Int)
      if -(2 ^ (intSize - 1) : Int) ≤ v ∧ v < (2 ^ (intSize - 1) : Int) then some v else none

/-- The call `c.QueryInt(key, defaultValue)` of Fiber:
`strconv.Atoi(getString(QueryArgs().Peek(key)))`, and the default when `Atoi`
returns an error. `param` is the value sent for `key`; for an absent key `Peek`
returns nil, which reads as the empty string. -/
def QueryInt (intSize : Nat) (param : Option String) (defaultValue : Int) : Int :=
  match Atoi intSize (param.getD "") with
  | some v => v
  | none => defaultValue

/-- The handler of `GET /api/v1/events`; `limitParam` is the `limit` query
parameter of the request. -/
def handleListEvents (srt : SliceSorter) (intSize : Nat) (p : Sys)
    (limitParam : Option String) : Response × Sys :=
  let limit := QueryInt intSize limitParam 10
  match ListEvents srt p.store limit with
  | (Outcome.ok items, s) =>
    (Response.events StatusOK items items.length, { p with store := s })
  | (Outcome.fail err, s) =>
    (Response.error StatusInternalServerError ("list events: " ++ err), { p with store := s })
  | (Outcome.panic, s) => (Response.crash, { p with store := s })

/-- The handler of `POST /api/v1/events`; `body` is what `c.BodyParser` makes of
the request body: `none` when it returns an error. -/
def handleCreateEvent (env : Env) (p : Sys) (body : Option CreateEventInput) : Response × Sys :=
  match body with
  | none => (Response.error StatusBadRequest "invalid payload", p)
  | some payload =>
    if payload.Title = "" then
      (Response.error StatusBadRequest "title is required", p)
    else
      match CreateEvent env p payload with
      | (Outcome.ok evt, q) => (Response.event StatusCreated evt, q)
      | (Outcome.fail err, q) =>
        (Response.error StatusInternalServerError ("create event: " ++ err), q)
      | (Outcome.panic, q) => (Response.crash, q)

/-- The handler of `GET /api/v1/metrics/daily`; `daysParam` is the `days` query
parameter of the request. -/
def handleListMetrics (srt : SliceSorter) (intSize : Nat) (p : Sys)
    (daysParam : Option String) : Response × Sys :=
  let days := QueryInt intSize daysParam 7
  match ListMetrics srt p.store days with
  | (Outcome.ok items, s) =>
    (Response.metrics StatusOK items items.length, { p with store := s })
  | (Outcome.fail err, s) =>
    (Response.error StatusInternalServerError ("list metrics: " ++ err), { p with store := s })
  | (Outcome.panic, s) => (Response.crash, { p with store := s })

/-! ## Runs of the process -/

/-- A call on the store. -/
inductive Call where
  | listEvents (limit : Int)
  | createEvent (input : CreateEventInput)
  | listMetrics (days : Int)

/-- One call on the store, from state `p`. -/
def Call.run (srt : SliceSorter) (env : Env) (p : Sys) : Call → Sys
  | Call.listEvents limit => { p with store := (ListEvents srt p.store limit).2 }
  | Call.createEvent input => (CreateEvent env p input).2
  | Call.listMetrics days => { p with store := (ListMetrics srt p.store days).2 }

/-- The state after `NewStore` and then the calls `cs`, in order. -/
def runCalls (srt : SliceSorter) (env : Env) (cs : List Call) : Sys :=
  cs.foldl (fun p c => c.run srt env p) (NewStore env)

/-- The state after the `CreateEvent` calls with inputs `inputs`, in order, from `p`. -/
def createAll (env : Env) (p : Sys) (inputs : List CreateEventInput) : Sys :=
  inputs.foldl (fun q input => (CreateEvent env q input).2) p

/-! ## Definitions used to state the theorems -/

/-- The number of entries a listing keeps, for an argument `n` and a collection
of `len` entries (used to state results, not part of the program). -/
def effectiveCount (n : Int) (len : Nat) : Nat :=
  if n ≤ 0 ∨ n > (len : Int) then len else n.toNat

/-- In storage order the events occur strictly later and later, and all of them
before the next clock reading. -/
def clockOrdered (env : Env) (q : Sys) : Prop :=
  q.store.events.Pairwise (fun a b => a.OccurredAt < b.OccurredAt) ∧
  ∀ e ∈ q.store.events, e.OccurredAt < env.Now q.clockCalls

/-- Every stored event carries an identifier the generator has already issued,
and no two stored events carry the same one. -/
def idsIssued (env : Env) (q : Sys) : Prop :=
  (∀ e ∈ q.store.events, ∃ k, k < q.uuidCalls ∧ e.ID = env.NewString k) ∧
  (q.store.events.map Event.ID).Nodup

/-! ## Concrete inputs -/

/-- An environment for concrete runs: the k-th identifier is `k + 1` letters
`u`, the k-th clock reading is `k` seconds, and the time zone is UTC, where a
calendar day is 24 hours. -/
def demoEnv : Env where
  NewString := fun k => String.mk (List.replicate (k + 1) 'u')
  Now := fun k => 1000000000 * (k : Int)
  AddDate := fun t days => t + days * (24 * Hour)

/-- A creation payload for concrete runs. -/
def demoInput : CreateEventInput where
  Title := "walk"
  Content := "3 km"
  Mood := "Calm"
  Tags := ["health"]
  MediaRefs := []

/-- The state reached from `NewStore` by nine `CreateEvent` calls: eleven events. -/
def elevenEvents : Sys := createAll demoEnv (NewStore demoEnv) (List.replicate 9 demoInput)

/-! ## The insertion sort meets the contract of `sort.Slice` -/

theorem siftLeft_perm {α : Type} (less : α → α → Bool) (x : α) (done : List α) :
    (siftLeft less x done).Perm (x :: done) := by
  induction done with
  | nil => exact List.Perm.refl _
  | cons y ys ih =>
    unfold siftLeft
    split
    · exact (List.Perm.cons y ih).trans (List.Perm.swap x y ys)
    · exact List.Perm.refl _

theorem siftLeft_pairwise {α : Type} (less : α → α → Bool) (hw : StrictWeak less) (x : α)
    (done : List α) (hd : done.Pairwise (fun a b => less a b = false)) :
    (siftLeft less x done).Pairwise (fun a b => less a b = false) := by
  induction done with
  | nil => simp [siftLeft]
  | cons y ys ih =>
    rw [List.pairwise_cons] at hd
    unfold siftLeft
    split
    · rename_i hxy
      rw [List.pairwise_cons]
      refine ⟨?_, ih hd.2⟩
      intro z hz
      rcases List.mem_cons.mp ((siftLeft_perm less x ys).subset hz) with rfl | hz
      · exact hw.asymm _ _ hxy
      · exact hd.1 z hz
    · rename_i hxy
      have hxy : less x y = false := by simpa using hxy
      rw [List.pairwise_cons]
      refine ⟨?_, List.pairwise_cons.mpr hd⟩
      intro z hz
      rcases List.mem_cons.mp hz with rfl | hz
      · exact hxy
      · exact hw.negTrans x y z hxy (hd.1 z hz)

theorem insertionSortLoop_perm {α : Type} (less : α → α → Bool) (todo done : List α) :
    (insertionSortLoop less done todo).Perm (done.reverse ++ todo) := by
  induction todo generalizing done with
  | nil => simp [insertionSortLoop]
  | cons x rest ih =>
    unfold insertionSortLoop
    refine (ih (siftLeft less x done)).trans ?_
    have h1 : (siftLeft less x done).reverse.Perm (done.reverse ++ [x]) := by
      refine (List.reverse_perm _).trans ((siftLeft_perm less x done).trans ?_)
      refine (List.perm_append_singleton x done).symm.trans ?_
      exact List.Perm.append_right _ (List.reverse_perm done).symm
    simpa using List.Perm.append_right rest h1

theorem insertionSortLoop_pairwise {α : Type} (less : α → α → Bool) (hw : StrictWeak less)
    (todo done : List α) (hd : done.Pairwise (fun a b => less a b = false)) :
    (insertionSortLoop less done todo).Pairwise (fun a b => less b a = false) := by
  induction todo generalizing done with
  | nil =>
    unfold insertionSortLoop
    exact List.pairwise_reverse.mpr hd
  | cons x rest ih =>
    unfold insertionSortLoop
    exact ih _ (siftLeft_pairwise less hw x done hd)

theorem goSorter_sortsCorrectly : SortsCorrectly goSorter where
  perm := fun less xs => by
    simpa [goSorter, insertionSortFunc] using insertionSortLoop_perm less xs []
  sorted := fun less xs hw => insertionSortLoop_pairwise less hw xs [] List.Pairwise.nil

/-! ## Facts shared by the theorems below -/

theorem effectiveCount_le (n : Int) (len : Nat) : effectiveCount n len ≤ len := by
  unfold effectiveCount
  split
  · exact le_refl _
  · omega

theorem eventLess_strictWeak : StrictWeak eventLess where
  asymm := by
    intro a b h
    simp only [eventLess, decide_eq_true_eq, decide_eq_false_iff_not] at *
    omega
  negTrans := by
    intro a b c h1 h2
    simp only [eventLess, decide_eq_false_iff_not] at *
    omega

theorem metricLess_strictWeak : StrictWeak metricLess where
  asymm := by
    intro a b h
    simp only [metricLess, decide_eq_true_eq, decide_eq_false_iff_not] at *
    omega
  negTrans := by
    intro a b c h1 h2
    simp only [metricLess, decide_eq_false_iff_not] at *
    omega

theorem sort_events_descending (srt : SliceSorter) (hsrt : SortsCorrectly srt) (xs : List Event) :
    (srt.sort eventLess xs).Pairwise (fun a b => b.OccurredAt ≤ a.OccurredAt) := by
  refine (hsrt.sorted eventLess xs eventLess_strictWeak).imp ?_
  intro a b h
  simp only [eventLess, decide_eq_false_iff_not] at h
  omega

theorem sort_metrics_ascending (srt : SliceSorter) (hsrt : SortsCorrectly srt) (xs : List Metric) :
    (srt.sort metricLess xs).Pairwise (fun a b => a.Date ≤ b.Date) := by
  refine (hsrt.sorted metricLess xs metricLess_strictWeak).imp ?_
  intro a b h
  simp only [metricLess, decide_eq_false_iff_not] at h
  omega

theorem ListEvents_eq (srt : SliceSorter) (hsrt : SortsCorrectly srt) (s : Store) (limit : Int) :
    ListEvents srt s limit =
      (Outcome.ok ((srt.sort eventLess s.events).take (effectiveCount limit s.events.length)), s) := by
  have hlen : (srt.sort eventLess s.events).length = s.events.length :=
    (hsrt.perm eventLess s.events).length_eq
  unfold ListEvents effectiveCount sliceTo
  simp only [List.nil_append, hlen]
  by_cases h : limit ≤ 0 ∨ limit > (s.events.length : Int)
  · simp [h]
  · have h2 : 0 ≤ limit ∧ limit ≤ (s.events.length : Int) := by omega
    simp [h, h2]

theorem ListMetrics_eq (srt : SliceSorter) (s : Store) (days : Int) :
    ListMetrics srt s days =
      (Outcome.ok (srt.sort metricLess
        (s.metrics.drop (s.metrics.length - effectiveCount days s.metrics.length))), s) := by
  unfold ListMetrics effectiveCount sliceFrom
  by_cases h : days ≤ 0 ∨ days > (s.metrics.length : Int)
  · simp [h]
  · have h2 : 0 ≤ (s.metrics.length : Int) - days ∧ 0 ≤ days := by omega
    have h3 : ((s.metrics.length : Int) - days).toNat = s.metrics.length - days.toNat := by omega
    simp [h, h2, h3]

/-! ## Store.ListEvents -/

/-- C1: for `0 < limit <= len(events)`, `ListEvents(limit)` succeeds and returns
exactly `limit` events, in descending order of `OccurredAt`, forming a
sub-multiset of the stored events, and every stored event that is left out
occurred no later than every returned event. -/
theorem listEvents_limit_newest (srt : SliceSorter) (hsrt : SortsCorrectly srt) (s : Store) (limit : Int)
    (hpos : 0 < limit) (hle : limit ≤ (s.events.length : Int)) :
    ∃ res : List Event,
      (ListEvents srt s limit).1 = Outcome.ok res ∧
      (res.length : Int) = limit ∧
      res.Pairwise (fun a b => b.OccurredAt ≤ a.OccurredAt) ∧
      (res : Multiset Event) ≤ (s.events : Multiset Event) ∧
      ∀ e ∈ (s.events : Multiset Event) - (res : Multiset Event), ∀ r ∈ res,
        e.OccurredAt ≤ r.OccurredAt := by
  have hk : effectiveCount limit s.events.length = limit.toNat := by
    unfold effectiveCount
    rw [if_neg (by omega)]
  have hperm := hsrt.perm eventLess s.events
  have hsorted := sort_events_descending srt hsrt s.events
  refine ⟨(srt.sort eventLess s.events).take limit.toNat, ?_, ?_, ?_, ?_, ?_⟩
  · rw [ListEvents_eq srt hsrt, hk]
  · rw [List.length_take, hperm.length_eq]
    omega
  · exact hsorted.sublist (List.take_sublist _ _)
  · rw [← Multiset.coe_eq_coe.mpr hperm]
    exact Multiset.coe_le.mpr (List.take_sublist _ _).subperm
  · intro e he r hr
    have hsplit : (s.events : Multiset Event) =
        (((srt.sort eventLess s.events).take limit.toNat : List Event) : Multiset Event) +
        (((srt.sort eventLess s.events).drop limit.toNat : List Event) : Multiset Event) := by
      rw [Multiset.coe_add, List.take_append_drop]
      exact (Multiset.coe_eq_coe.mpr hperm).symm
    rw [hsplit, add_tsub_cancel_left, Multiset.mem_coe] at he
    exact List.Sorted.rel_of_mem_take_of_mem_drop hsorted hr he

theorem listEvents_limit_newest_witness :
    ∃ res : List Event,
      (ListEvents goSorter (NewStore demoEnv).store 1).1 = Outcome.ok res ∧
      (res.length : Int) = 1 ∧
      res.Pairwise (fun a b => b.OccurredAt ≤ a.OccurredAt) ∧
      (res : Multiset Event) ≤ ((NewStore demoEnv).store.events : Multiset Event) ∧
      ∀ e ∈ ((NewStore demoEnv).store.events : Multiset Event) - (res : Multiset Event),
        ∀ r ∈ res, e.OccurredAt ≤ r.OccurredAt :=
  listEvents_limit_newest goSorter goSorter_sortsCorrectly (NewStore demoEnv).store 1 (by decide) (by decide)

/-- C2: for `limit <= 0` or `limit > len(events)`, `ListEvents(limit)` succeeds
and returns a permutation of the whole event collection: as many entries as are
stored, and none exactly when the collection is empty. -/
theorem listEvents_default_all (srt : SliceSorter) (hsrt : SortsCorrectly srt) (s : Store) (limit : Int)
    (hlim : limit ≤ 0 ∨ limit > (s.events.length : Int)) :
    ∃ res : List Event,
      (ListEvents srt s limit).1 = Outcome.ok res ∧
      res.Perm s.events ∧
      res.length = s.events.length ∧
      (res = [] ↔ s.events = []) := by
  have hk : effectiveCount limit s.events.length = s.events.length := by
    unfold effectiveCount
    rw [if_pos hlim]
  have hperm := hsrt.perm eventLess s.events
  refine ⟨srt.sort eventLess s.events, ?_, hperm, hperm.length_eq, ?_⟩
  · rw [ListEvents_eq srt hsrt, hk, ← hperm.length_eq, List.take_length]
  · constructor
    · intro h
      exact List.Perm.eq_nil (h ▸ hperm.symm)
    · intro h
      exact List.Perm.eq_nil (h ▸ hperm)

theorem listEvents_default_all_witness :
    ∃ res : List Event,
      (ListEvents goSorter (NewStore demoEnv).store (-5)).1 = Outcome.ok res ∧
      res.Perm (NewStore demoEnv).store.events ∧
      res.length = (NewStore demoEnv).store.events.length ∧
      (res = [] ↔ (NewStore demoEnv).store.events = []) :=
  listEvents_default_all goSorter goSorter_sortsCorrectly (NewStore demoEnv).store (-5) (Or.inl (by decide))

theorem handleListEvents_eq (srt : SliceSorter) (hsrt : SortsCorrectly srt) (intSize : Nat)
    (p : Sys) (limitParam : Option String) :
    handleListEvents srt intSize p limitParam =
      (Response.events StatusOK
        ((srt.sort eventLess p.store.events).take
          (effectiveCount (QueryInt intSize limitParam 10) p.store.events.length))
        (min (effectiveCount (QueryInt intSize limitParam 10) p.store.events.length)
          p.store.events.length), p) := by
  unfold handleListEvents
  simp only [ListEvents_eq srt hsrt, List.length_take,
    (hsrt.perm eventLess p.store.events).length_eq]

theorem Atoi_empty (intSize : Nat) : Atoi intSize "" = none := rfl

/-- C3, as stated, fails: with eleven events stored and no `limit` parameter the
handler (on a 64-bit machine) answers with ten entries and `meta.count` 10. -/
theorem handleListEvents_absent_limit_truncates :
    elevenEvents.store.events.length = 11 ∧
    (handleListEvents goSorter 64 elevenEvents none).1 =
      Response.events 200 ((insertionSortFunc eventLess elevenEvents.store.events).take 10) 10 ∧
    ((insertionSortFunc eventLess elevenEvents.store.events).take 10).length = 10 := by
  decide

/-- C3, amended: the handler of `GET /api/v1/events` always answers 200 with
`meta.count` the number of entries of `data`, the list `ListEvents` returns for
the limit read by `QueryInt`. When `limit` is absent, or is a string that
`strconv.Atoi` rejects (not a decimal integer, or outside the range of `int`),
it lists with limit 10, so `data` has `min 10 (number of stored events)`
entries. When `limit` is a decimal integer in the range of `int` that is
non-positive or above the number of stored events, `data` has as many entries
as there are stored events. -/
theorem handleListEvents_default_limit (srt : SliceSorter) (hsrt : SortsCorrectly srt)
    (intSize : Nat) (p : Sys) (limitParam : Option String) :
    ∃ data : List Event,
      handleListEvents srt intSize p limitParam =
        (Response.events StatusOK data data.length, p) ∧
      (ListEvents srt p.store (QueryInt intSize limitParam 10)).1 = Outcome.ok data ∧
      (limitParam = none → data.length = min 10 p.store.events.length) ∧
      (Atoi intSize (limitParam.getD "") = none →
        data.length = min 10 p.store.events.length) ∧
      (∀ n : Int, Atoi intSize (limitParam.getD "") = some n →
        n ≤ 0 ∨ n > (p.store.events.length : Int) →
        data.length = p.store.events.length) := by
  have hlen := (hsrt.perm eventLess p.store.events).length_eq
  have hdefault : Atoi intSize (limitParam.getD "") = none →
      min (effectiveCount (QueryInt intSize limitParam 10) p.store.events.length)
        p.store.events.length = min 10 p.store.events.length := by
    intro h
    have hq : QueryInt intSize limitParam 10 = 10 := by
      unfold QueryInt
      rw [h]
    rw [hq]
    unfold effectiveCount
    split <;> omega
  refine ⟨(srt.sort eventLess p.store.events).take
    (effectiveCount (QueryInt intSize limitParam 10) p.store.events.length), ?_, ?_, ?_, ?_, ?_⟩
  · rw [handleListEvents_eq srt hsrt, List.length_take, hlen]
  · rw [ListEvents_eq srt hsrt]
  · intro h
    subst h
    rw [List.length_take, hlen]
    exact hdefault (Atoi_empty intSize)
  · intro h
    rw [List.length_take, hlen]
    exact hdefault h
  · intro n h hn
    rw [List.length_take, hlen]
    have hq : QueryInt intSize limitParam 10 = n := by
      unfold QueryInt
      rw [h]
    rw [hq]
    unfold effectiveCount
    simp only [if_pos hn, min_self]

theorem handleListEvents_default_limit_witness :
    (∃ data : List Event,
      handleListEvents goSorter 64 elevenEvents none =
        (Response.events StatusOK data data.length, elevenEvents) ∧
      data.length = min 10 elevenEvents.store.events.length) ∧
    (∃ data : List Event,
      handleListEvents goSorter 64 elevenEvents (some "99999999999999999999") =
        (Response.events StatusOK data data.length, elevenEvents) ∧
      data.length = min 10 elevenEvents.store.events.length) ∧
    (∃ data : List Event,
      handleListEvents goSorter 64 elevenEvents (some "99") =
        (Response.events StatusOK data data.length, elevenEvents) ∧
      data.length = elevenEvents.store.events.length) ∧
    (∃ data : List Event,
      handleListEvents goSorter 64 elevenEvents (some "-3") =
        (Response.events StatusOK data data.length, elevenEvents) ∧
      data.length = elevenEvents.store.events.length) :=
  ⟨(handleListEvents_default_limit goSorter goSorter_sortsCorrectly 64 elevenEvents none).imp
      (fun _ h => ⟨h.1, h.2.2.1 rfl⟩),
   (handleListEvents_default_limit goSorter goSorter_sortsCorrectly 64 elevenEvents
      (some "99999999999999999999")).imp (fun _ h => ⟨h.1, h.2.2.2.1 (by decide)⟩),
   (handleListEvents_default_limit goSorter goSorter_sortsCorrectly 64 elevenEvents
      (some "99")).imp (fun _ h => ⟨h.1, h.2.2.2.2 99 (by decide) (Or.inr (by decide))⟩),
   (handleListEvents_default_limit goSorter goSorter_sortsCorrectly 64 elevenEvents
      (some "-3")).imp (fun _ h => ⟨h.1, h.2.2.2.2 (-3) (by decide) (Or.inl (by decide))⟩)⟩

/-! ## Store.CreateEvent -/

/-- C5: `CreateEvent` never returns an error; the event it returns has the
Title, Content, Mood, Tags and MediaRefs of the input, the next identifier of
the generator and the next reading of the clock; the event collection
afterwards is the previous one with that event appended. -/
theorem createEvent_appends (env : Env) (p : Sys) (input : CreateEventInput) :
    ∃ evt : Event,
      (CreateEvent env p input).1 = Outcome.ok evt ∧
      evt.Title = input.Title ∧ evt.Content = input.Content ∧ evt.Mood = input.Mood ∧
      evt.Tags = input.Tags ∧ evt.MediaRefs = input.MediaRefs ∧
      evt.ID = env.NewString p.uuidCalls ∧ evt.OccurredAt = env.Now p.clockCalls ∧
      (CreateEvent env p input).2.store.events = p.store.events ++ [evt] :=
  ⟨_, rfl, rfl, rfl, rfl, rfl, rfl, rfl, rfl, rfl⟩

/-- C4: after `CreateEvent(A)` and then `CreateEvent(B)`, when the clock reading
taken for B is strictly after the one taken for A and strictly after the
`OccurredAt` of every event stored before, `ListEvents(1)` returns exactly
`[B]`, the event that `CreateEvent(B)` returned. -/
theorem listEvents_one_after_two_creates (srt : SliceSorter) (hsrt : SortsCorrectly srt) (env : Env) (p : Sys)
    (A B : CreateEventInput)
    (hAB : env.Now p.clockCalls < env.Now (p.clockCalls + 1))
    (hold : ∀ e ∈ p.store.events, e.OccurredAt < env.Now (p.clockCalls + 1)) :
    ∃ b : Event,
      (CreateEvent env (CreateEvent env p A).2 B).1 = Outcome.ok b ∧
      (ListEvents srt (CreateEvent env (CreateEvent env p A).2 B).2.store 1).1 =
        Outcome.ok [b] := by
  refine ⟨_, rfl, ?_⟩
  rw [ListEvents_eq srt hsrt]
  generalize hb : (CreateEvent env (CreateEvent env p A).2 B).1 = rb
  generalize hs : (CreateEvent env (CreateEvent env p A).2 B).2.store.events = evs
  simp only [CreateEvent, List.nil_append, List.append_assoc, List.singleton_append] at hb hs
  subst hb
  have hperm := hsrt.perm eventLess evs
  have hsorted := sort_events_descending srt hsrt evs
  have hlen : evs.length = p.store.events.length + 2 := by
    rw [← hs]
    simp
  have hk : effectiveCount 1 evs.length = 1 := by
    unfold effectiveCount
    rw [if_neg (by omega)]
    rfl
  rw [hk]
  have hmax : ∀ e ∈ evs, e = ⟨env.NewString (p.uuidCalls + 1), B.Title, B.Content, B.Mood,
      B.Tags, B.MediaRefs, env.Now (p.clockCalls + 1)⟩ ∨
      e.OccurredAt < env.Now (p.clockCalls + 1) := by
    intro e he
    rw [← hs] at he
    simp only [List.mem_append, List.mem_cons, List.mem_singleton, List.not_mem_nil,
      or_false] at he
    rcases he with he | he | he
    · exact Or.inr (hold e he)
    · right
      rw [he]
      exact hAB
    · exact Or.inl he
  have hbmem : (⟨env.NewString (p.uuidCalls + 1), B.Title, B.Content, B.Mood,
      B.Tags, B.MediaRefs, env.Now (p.clockCalls + 1)⟩ : Event) ∈ srt.sort eventLess evs := by
    refine hperm.symm.subset ?_
    rw [← hs]
    simp
  cases hl : srt.sort eventLess evs with
  | nil =>
    have := hperm.length_eq
    rw [hl] at this
    simp at this
    omega
  | cons x tl =>
    rw [hl] at hsorted hbmem
    have hx : x ∈ evs := hperm.subset (by rw [hl]; exact List.mem_cons_self _ _)
    rw [List.pairwise_cons] at hsorted
    simp only [List.take_succ_cons, List.take_zero, Prod.mk.injEq, Outcome.ok.injEq,
      List.cons.injEq, and_true]
    rcases hmax x hx with h | h
    · exact h
    · rcases List.mem_cons.mp hbmem with h2 | h2
      · exact h2.symm
      · have := hsorted.1 _ h2
        simp only at this
        omega

theorem listEvents_one_after_two_creates_witness :
    ∃ b : Event,
      (CreateEvent demoEnv (CreateEvent demoEnv (NewStore demoEnv) demoInput).2 demoInput).1 =
        Outcome.ok b ∧
      (ListEvents goSorter
        (CreateEvent demoEnv (CreateEvent demoEnv (NewStore demoEnv) demoInput).2
          demoInput).2.store 1).1 = Outcome.ok [b] :=
  listEvents_one_after_two_creates goSorter goSorter_sortsCorrectly demoEnv (NewStore demoEnv) demoInput demoInput
    (by decide) (by decide)

/-! ## Runs of `CreateEvent` from `NewStore` -/

theorem createAll_induction (env : Env) (P : Sys → Prop)
    (hstep : ∀ q input, P q → P (CreateEvent env q input).2) :
    ∀ (inputs : List CreateEventInput) (p : Sys), P p → P (createAll env p inputs) := by
  intro inputs
  induction inputs with
  | nil => intro p hp; exact hp
  | cons x rest ih => intro p hp; exact ih _ (hstep p x hp)

theorem createAll_length (env : Env) (inputs : List CreateEventInput) (p : Sys) :
    (createAll env p inputs).store.events.length = p.store.events.length + inputs.length := by
  induction inputs generalizing p with
  | nil => rfl
  | cons x rest ih =>
    show (createAll env (CreateEvent env p x).2 rest).store.events.length = _
    rw [ih]
    simp [CreateEvent]
    omega

theorem clockOrdered_NewStore (env : Env) (hclock : ∀ i j, i < j → env.Now i < env.Now j) :
    clockOrdered env (NewStore env) := by
  have h01 := hclock 0 1 (by decide)
  have h03 := hclock 0 3 (by decide)
  have h13 := hclock 1 3 (by decide)
  unfold clockOrdered NewStore
  simp only [List.pairwise_cons, List.mem_cons, List.mem_singleton, List.not_mem_nil,
    forall_eq_or_imp, forall_eq, Hour]
  refine ⟨⟨?_, ?_, List.Pairwise.nil⟩, ?_, ?_, ?_⟩
  · refine ⟨?_, fun a h => h.elim⟩
    omega
  · exact fun a h => h.elim
  · omega
  · omega
  · exact fun a h => h.elim

theorem clockOrdered_CreateEvent (env : Env) (hclock : ∀ i j, i < j → env.Now i < env.Now j)
    (q : Sys) (input : CreateEventInput) (hq : clockOrdered env q) :
    clockOrdered env (CreateEvent env q input).2 := by
  have hnext := hclock q.clockCalls (q.clockCalls + 1) (Nat.lt_succ_self _)
  unfold clockOrdered at *
  simp only [CreateEvent, List.nil_append]
  constructor
  · rw [List.pairwise_append]
    refine ⟨hq.1, List.pairwise_singleton _ _, ?_⟩
    intro a ha b hb
    rw [List.mem_singleton] at hb
    subst hb
    exact hq.2 a ha
  · intro e he
    rcases List.mem_append.mp he with he | he
    · exact lt_trans (hq.2 e he) hnext
    · rw [List.mem_singleton] at he
      subst he
      exact hnext

theorem idsIssued_NewStore (env : Env) (hinj : Function.Injective env.NewString) :
    idsIssued env (NewStore env) := by
  unfold idsIssued NewStore
  constructor
  · intro e he
    simp only [List.mem_cons, List.mem_singleton, List.not_mem_nil, or_false] at he
    rcases he with he | he
    · exact ⟨0, (by decide : 0 < 9), by rw [he]⟩
    · exact ⟨1, (by decide : 1 < 9), by rw [he]⟩
  · simp only [List.map_cons, List.map_nil, List.nodup_cons, List.mem_singleton,
      List.not_mem_nil, not_false_eq_true, List.nodup_nil, and_true]
    intro h
    exact absurd (hinj h) (by decide)

theorem idsIssued_CreateEvent (env : Env) (hinj : Function.Injective env.NewString)
    (q : Sys) (input : CreateEventInput) (hq : idsIssued env q) :
    idsIssued env (CreateEvent env q input).2 := by
  unfold idsIssued at *
  simp only [CreateEvent, List.nil_append]
  constructor
  · intro e he
    rcases List.mem_append.mp he with he | he
    · obtain ⟨k, hk, hid⟩ := hq.1 e he
      exact ⟨k, Nat.lt_succ_of_lt hk, hid⟩
    · rw [List.mem_singleton] at he
      subst he
      exact ⟨q.uuidCalls, Nat.lt_succ_self _, rfl⟩
  · rw [List.map_append, List.nodup_append]
    refine ⟨hq.2, List.nodup_singleton _, ?_⟩
    intro a ha hb
    simp only [List.map_cons, List.map_nil, List.mem_singleton] at hb
    obtain ⟨e, he, rfl⟩ := List.mem_map.mp ha
    obtain ⟨k, hk, hid⟩ := hq.1 e he
    rw [hid] at hb
    have := hinj hb
    omega

theorem demoEnv_injective : Function.Injective demoEnv.NewString := by
  intro a b h
  have h2 := congrArg String.length h
  simpa [demoEnv, String.length] using h2

theorem demoEnv_nonempty (k : Nat) : demoEnv.NewString k ≠ "" := by
  intro h
  have h2 := congrArg String.length h
  simp [demoEnv, String.length] at h2

theorem demoEnv_clock (i j : Nat) (h : i < j) : demoEnv.Now i < demoEnv.Now j := by
  simp only [demoEnv]
  omega

/-- C6: from the store built by `NewStore`, after `N` calls of `CreateEvent` and
with a clock whose readings strictly increase, `ListEvents(0)` returns exactly
`N + 2` events, each strictly later than the one after it. -/
theorem listEvents_after_creates (srt : SliceSorter) (hsrt : SortsCorrectly srt) (env : Env)
    (hclock : ∀ i j, i < j → env.Now i < env.Now j) (inputs : List CreateEventInput) :
    ∃ res : List Event,
      (ListEvents srt (createAll env (NewStore env) inputs).store 0).1 = Outcome.ok res ∧
      res.length = inputs.length + 2 ∧
      res.Pairwise (fun a b => b.OccurredAt < a.OccurredAt) := by
  have hinv : clockOrdered env (createAll env (NewStore env) inputs) :=
    createAll_induction env (clockOrdered env)
      (fun q input hq => clockOrdered_CreateEvent env hclock q input hq) inputs _
      (clockOrdered_NewStore env hclock)
  have hpw : (createAll env (NewStore env) inputs).store.events.Pairwise
      (fun a b => a.OccurredAt < b.OccurredAt) := hinv.1
  have hlen : (createAll env (NewStore env) inputs).store.events.length = 2 + inputs.length :=
    createAll_length env inputs (NewStore env)
  generalize (createAll env (NewStore env) inputs).store = st at hpw hlen
  have hperm := hsrt.perm eventLess st.events
  have hk : effectiveCount 0 st.events.length = st.events.length := by
    unfold effectiveCount
    rw [if_pos (Or.inl (le_refl _))]
  refine ⟨srt.sort eventLess st.events, ?_, ?_, ?_⟩
  · rw [ListEvents_eq srt hsrt, hk, ← hperm.length_eq, List.take_length]
  · rw [hperm.length_eq, hlen]
    exact Nat.add_comm 2 _
  · have hne : st.events.Pairwise (fun a b => a.OccurredAt ≠ b.OccurredAt) :=
      hpw.imp (fun h => ne_of_lt h)
    have hne2 : (srt.sort eventLess st.events).Pairwise
        (fun a b => a.OccurredAt ≠ b.OccurredAt) :=
      (hperm.pairwise_iff (fun h => Ne.symm h)).mpr hne
    refine ((sort_events_descending srt hsrt st.events).and hne2).imp ?_
    intro a b h
    exact lt_of_le_of_ne h.1 (Ne.symm h.2)

theorem listEvents_after_creates_witness :
    ∃ res : List Event,
      (ListEvents goSorter
        (createAll demoEnv (NewStore demoEnv) [demoInput, demoInput]).store 0).1 =
          Outcome.ok res ∧
      res.length = [demoInput, demoInput].length + 2 ∧
      res.Pairwise (fun a b => b.OccurredAt < a.OccurredAt) :=
  listEvents_after_creates goSorter goSorter_sortsCorrectly demoEnv demoEnv_clock [demoInput, demoInput]

/-- C9: with an identifier generator that never yields the empty string and
never repeats a value, in every state reached from `NewStore` by `CreateEvent`
calls the next `CreateEvent` returns an event whose ID is non-empty, differs
from the ID of every stored event, and is the same whatever the input; and the
IDs of the stored events are pairwise distinct. -/
theorem createEvent_fresh_id (env : Env) (hinj : Function.Injective env.NewString)
    (hne : ∀ k, env.NewString k ≠ "") (inputs : List CreateEventInput)
    (input : CreateEventInput) :
    ∃ evt : Event,
      (CreateEvent env (createAll env (NewStore env) inputs) input).1 = Outcome.ok evt ∧
      evt.ID ≠ "" ∧
      (∀ e ∈ (createAll env (NewStore env) inputs).store.events, e.ID ≠ evt.ID) ∧
      (∀ other : CreateEventInput, ∃ evt2 : Event,
        (CreateEvent env (createAll env (NewStore env) inputs) other).1 = Outcome.ok evt2 ∧
        evt2.ID = evt.ID) ∧
      ((createAll env (NewStore env) inputs).store.events.map Event.ID).Nodup := by
  have hinv : idsIssued env (createAll env (NewStore env) inputs) :=
    createAll_induction env (idsIssued env)
      (fun q x hq => idsIssued_CreateEvent env hinj q x hq) inputs _
      (idsIssued_NewStore env hinj)
  generalize createAll env (NewStore env) inputs = q at hinv
  refine ⟨_, rfl, hne _, ?_, fun other => ⟨_, rfl, rfl⟩, hinv.2⟩
  intro e he heq
  obtain ⟨k, hk, hid⟩ := hinv.1 e he
  rw [hid] at heq
  have := hinj heq
  omega

theorem createEvent_fresh_id_witness :
    ∃ evt : Event,
      (CreateEvent demoEnv (createAll demoEnv (NewStore demoEnv) [demoInput]) demoInput).1 =
        Outcome.ok evt ∧
      evt.ID ≠ "" ∧
      (∀ e ∈ (createAll demoEnv (NewStore demoEnv) [demoInput]).store.events, e.ID ≠ evt.ID) ∧
      (∀ other : CreateEventInput, ∃ evt2 : Event,
        (CreateEvent demoEnv (createAll demoEnv (NewStore demoEnv) [demoInput]) other).1 =
          Outcome.ok evt2 ∧
        evt2.ID = evt.ID) ∧
      ((createAll demoEnv (NewStore demoEnv) [demoInput]).store.events.map Event.ID).Nodup :=
  createEvent_fresh_id demoEnv demoEnv_injective demoEnv_nonempty [demoInput] demoInput

/-! ## The handler of `POST /api/v1/events` -/

/-- C7: when the body does not parse, or parses to an empty title,
`handleCreateEvent` answers with status 400 and the state (the event collection
included) is what it was; when the body parses to a non-empty title it answers
with status 201 and the event `CreateEvent` returned. -/
theorem handleCreateEvent_validation (env : Env) (p : Sys) (body : Option CreateEventInput) :
    ((body = none ∨ ∃ payload, body = some payload ∧ payload.Title = "") →
      ∃ msg : String, handleCreateEvent env p body = (Response.error 400 msg, p)) ∧
    (∀ payload, body = some payload → payload.Title ≠ "" →
      ∃ evt : Event, (CreateEvent env p payload).1 = Outcome.ok evt ∧
        handleCreateEvent env p body =
          (Response.event 201 evt, (CreateEvent env p payload).2) ∧
        (CreateEvent env p payload).2.store.events = p.store.events ++ [evt]) := by
  constructor
  · intro h
    rcases h with h | ⟨payload, h, ht⟩
    · subst h
      exact ⟨_, rfl⟩
    · subst h
      refine ⟨"title is required", ?_⟩
      unfold handleCreateEvent
      simp only [ht, if_true]
      rfl
  · intro payload h ht
    subst h
    refine ⟨_, rfl, ?_, rfl⟩
    unfold handleCreateEvent
    simp only [ht, if_false]
    rfl

theorem handleCreateEvent_validation_witness :
    (∃ msg : String,
      handleCreateEvent demoEnv (NewStore demoEnv) (some { demoInput with Title := "" }) =
        (Response.error 400 msg, NewStore demoEnv)) ∧
    (∃ evt : Event, (CreateEvent demoEnv (NewStore demoEnv) demoInput).1 = Outcome.ok evt ∧
      handleCreateEvent demoEnv (NewStore demoEnv) (some demoInput) =
        (Response.event 201 evt, (CreateEvent demoEnv (NewStore demoEnv) demoInput).2) ∧
      (CreateEvent demoEnv (NewStore demoEnv) demoInput).2.store.events =
        (NewStore demoEnv).store.events ++ [evt]) :=
  ⟨(handleCreateEvent_validation demoEnv (NewStore demoEnv)
      (some { demoInput with Title := "" })).1 (Or.inr ⟨_, rfl, rfl⟩),
   (handleCreateEvent_validation demoEnv (NewStore demoEnv) (some demoInput)).2
      demoInput rfl (by decide)⟩

/-! ## Store.ListMetrics -/

theorem sort_metrics_of_ascending (srt : SliceSorter) (hsrt : SortsCorrectly srt) (l : List Metric)
    (h : l.Pairwise (fun a b => a.Date < b.Date)) : srt.sort metricLess l = l := by
  have hperm := hsrt.perm metricLess l
  have hne : (srt.sort metricLess l).Pairwise (fun a b => a.Date ≠ b.Date) :=
    (hperm.pairwise_iff (fun h => Ne.symm h)).mpr (h.imp (fun h => ne_of_lt h))
  have hlt : (srt.sort metricLess l).Pairwise (fun a b => a.Date < b.Date) :=
    ((sort_metrics_ascending srt hsrt l).and hne).imp (fun h => lt_of_le_of_ne h.1 h.2)
  haveI : IsAntisymm Metric (fun a b => a.Date < b.Date) :=
    ⟨fun a b h1 h2 => absurd h1 (not_lt_of_lt h2)⟩
  exact List.eq_of_perm_of_sorted hperm hlt h

/-- C8: for every integer `days`, `ListMetrics(days)` succeeds (no slice
expression is out of range) and returns the trailing `k` stored metrics,
rearranged into ascending `Date` order, where `k = days` when
`0 < days <= len(metrics)` and `k = len(metrics)` otherwise. The store built by
`NewStore` holds seven metrics, of which the three stored last have `Open` 74,
75, 76, and on it `ListMetrics(3)` returns exactly these three, rearranged into
ascending `Date` order; when their dates strictly increase in storage order
(whatever the time zone makes of `AddDate`), the result is these three in
storage order. -/
theorem listMetrics_trailing (srt : SliceSorter) (hsrt : SortsCorrectly srt) (s : Store)
    (days : Int) (env : Env) :
    (∃ res : List Metric,
      (ListMetrics srt s days).1 = Outcome.ok res ∧
      res.Perm (s.metrics.drop (s.metrics.length -
        (if 0 < days ∧ days ≤ (s.metrics.length : Int) then days.toNat
          else s.metrics.length))) ∧
      res.length =
        (if 0 < days ∧ days ≤ (s.metrics.length : Int) then days.toNat
          else s.metrics.length) ∧
      res.Pairwise (fun a b => a.Date ≤ b.Date)) ∧
    (NewStore env).store.metrics.length = 7 ∧
    ((NewStore env).store.metrics.drop 4).map Metric.Open = [74, 75, 76] ∧
    (∃ res : List Metric,
      (ListMetrics srt (NewStore env).store 3).1 = Outcome.ok res ∧
      res.Perm ((NewStore env).store.metrics.drop 4) ∧
      res.length = 3 ∧
      res.Pairwise (fun a b => a.Date ≤ b.Date)) ∧
    (((NewStore env).store.metrics.drop 4).Pairwise (fun a b => a.Date < b.Date) →
      (ListMetrics srt (NewStore env).store 3).1 =
        Outcome.ok ((NewStore env).store.metrics.drop 4)) := by
  have hk3 : (NewStore env).store.metrics.length -
      effectiveCount 3 (NewStore env).store.metrics.length = 4 := rfl
  refine ⟨?_, rfl, rfl, ?_, ?_⟩
  · have hk : effectiveCount days s.metrics.length =
        (if 0 < days ∧ days ≤ (s.metrics.length : Int) then days.toNat
          else s.metrics.length) := by
      unfold effectiveCount
      by_cases h : 0 < days ∧ days ≤ (s.metrics.length : Int)
      · rw [if_pos h, if_neg (by omega)]
      · rw [if_neg h, if_pos (by omega)]
    have hle := effectiveCount_le days s.metrics.length
    rw [← hk]
    refine ⟨_, by rw [ListMetrics_eq srt], hsrt.perm metricLess _, ?_,
      sort_metrics_ascending srt hsrt _⟩
    rw [(hsrt.perm metricLess _).length_eq, List.length_drop]
    omega
  · refine ⟨_, by rw [ListMetrics_eq srt, hk3], hsrt.perm metricLess _, ?_,
      sort_metrics_ascending srt hsrt _⟩
    rw [(hsrt.perm metricLess _).length_eq]
    rfl
  · intro hasc
    rw [ListMetrics_eq srt, hk3, sort_metrics_of_ascending srt hsrt _ hasc]

theorem listMetrics_trailing_witness :
    (ListMetrics goSorter (NewStore demoEnv).store 3).1 =
      Outcome.ok ((NewStore demoEnv).store.metrics.drop 4) ∧
    (∃ res : List Metric,
      (ListMetrics goSorter (NewStore demoEnv).store 3).1 = Outcome.ok res ∧
      res.Perm ((NewStore demoEnv).store.metrics.drop 4) ∧
      res.length = 3 ∧
      res.Pairwise (fun a b => a.Date ≤ b.Date)) ∧
    (∃ res : List Metric,
      (ListMetrics goSorter (NewStore demoEnv).store (-1)).1 = Outcome.ok res ∧
      res.Perm ((NewStore demoEnv).store.metrics.drop ((NewStore demoEnv).store.metrics.length -
        (if 0 < (-1 : Int) ∧ (-1 : Int) ≤ ((NewStore demoEnv).store.metrics.length : Int)
          then (-1 : Int).toNat else (NewStore demoEnv).store.metrics.length))) ∧
      res.length =
        (if 0 < (-1 : Int) ∧ (-1 : Int) ≤ ((NewStore demoEnv).store.metrics.length : Int)
          then (-1 : Int).toNat else (NewStore demoEnv).store.metrics.length) ∧
      res.Pairwise (fun a b => a.Date ≤ b.Date)) :=
  ⟨(listMetrics_trailing goSorter goSorter_sortsCorrectly (NewStore demoEnv).store (-1)
      demoEnv).2.2.2.2 (by decide),
   (listMetrics_trailing goSorter goSorter_sortsCorrectly (NewStore demoEnv).store (-1)
      demoEnv).2.2.2.1,
   (listMetrics_trailing goSorter goSorter_sortsCorrectly (NewStore demoEnv).store (-1)
      demoEnv).1⟩

/-! ## Frame -/

theorem ListEvents_store (srt : SliceSorter) (s : Store) (limit : Int) :
    (ListEvents srt s limit).2 = s := by
  unfold ListEvents
  simp only
  split <;> rfl

theorem ListMetrics_store (srt : SliceSorter) (s : Store) (days : Int) :
    (ListMetrics srt s days).2 = s := by
  unfold ListMetrics
  simp only
  split <;> rfl

theorem foldl_run_metrics (srt : SliceSorter) (env : Env) (cs : List Call) (p : Sys) :
    (cs.foldl (fun q c => c.run srt env q) p).store.metrics = p.store.metrics := by
  induction cs generalizing p with
  | nil => rfl
  | cons c rest ih =>
    rw [List.foldl_cons, ih]
    cases c with
    | listEvents limit => simp only [Call.run, ListEvents_store]
    | createEvent input => rfl
    | listMetrics days => simp only [Call.run, ListMetrics_store]

/-- C10: `ListEvents` and `ListMetrics` leave the store (both collections) as it
was, whatever their argument; `CreateEvent` leaves the metric collection as it
was; so after `NewStore` and any sequence of calls the metric collection is the
seven seeded metrics. -/
theorem listing_read_only (srt : SliceSorter) (env : Env) (s : Store) (p : Sys)
    (limit days : Int) (input : CreateEventInput) (cs : List Call) :
    (ListEvents srt s limit).2 = s ∧
    (ListMetrics srt s days).2 = s ∧
    (CreateEvent env p input).2.store.metrics = p.store.metrics ∧
    (runCalls srt env cs).store.metrics = (NewStore env).store.metrics ∧
    (NewStore env).store.metrics.length = 7 :=
  ⟨ListEvents_store srt s limit, ListMetrics_store srt s days, rfl,
    foldl_run_metrics srt env cs (NewStore env), rfl⟩

end BasicRecords
